import Mathlib

/-!
# esp_moisture_http.c : response accumulator, payload builder, calibration

A shallow embedding of `src/main/esp_moisture_http.c`.

* `_http_event_handler` is the event callback.  Its two function-local
  `static` variables (`output_buffer`, `output_len`) become fields of `State`,
  which is threaded through every call.  What the callback reads from the
  event and from the HTTP client (`evt->data`, `evt->user_data`, the chunked
  flag, the declared content length, the outcome of `malloc`) is the `Event`.
* `https_with_url` is embedded up to the call of
  `esp_http_client_set_post_field`: the two `snprintf` calls and `strlen`.
* `VAL_TO_PERCENT` is the calibration macro used by `get_data`.

Bytes are natural numbers, texts are lists of characters, and a `double` or
`float` is the rational number it denotes, every floating-point operation
being the exact operation followed by rounding to nearest, ties to even.
-/

namespace EspMoistureHttp

/-! ## Data model of the event handler -/

/-- Event identifiers that the `switch` of `_http_event_handler` dispatches on. -/
inductive EventId where
  | HTTP_EVENT_ERROR
  | HTTP_EVENT_ON_CONNECTED
  | HTTP_EVENT_HEADER_SENT
  | HTTP_EVENT_ON_HEADER
  | HTTP_EVENT_ON_DATA
  | HTTP_EVENT_ON_FINISH
  | HTTP_EVENT_DISCONNECTED
  deriving DecidableEq

/-- Result codes returned by the handler. -/
inductive EspErr where
  | ESP_OK
  | ESP_FAIL
  deriving DecidableEq

/-- One invocation of the callback: the event record together with the answers
of the environment that the handler asks for while processing it.

* `data` is `evt->data`; `evt->data_len` is `data.length`.
* `user_data` tells whether `evt->user_data` is non-NULL (a caller-fixed buffer).
* `is_chunked` is `esp_http_client_is_chunked_response(evt->client)`.
* `content_length` is `esp_http_client_get_content_length(evt->client)`.
* `malloc_ok` tells whether a `malloc` made while processing this event
  returns a non-NULL pointer. -/
structure Event where
  event_id : EventId
  data : List Nat
  user_data : Bool
  is_chunked : Bool
  content_length : Int
  malloc_ok : Bool
  deriving DecidableEq

/-- State threaded through the handler.

* `output_buffer` is the static pointer: `none` is NULL, `some b` points to a
  heap block whose bytes are `b` (its size is `b.length`).
* `output_len` is the static `int` offset.
* `user_mem` is the memory behind `evt->user_data` (the caller-fixed buffer).
* `allocs`, `frees` count the successful `malloc` calls and the `free` calls.
* `oob` records that some `memcpy` wrote outside its destination block.
* `ovf` records that `output_len += evt->data_len` left the range of `int`. -/
structure State where
  output_buffer : Option (List Nat)
  output_len : Int
  user_mem : List Nat
  allocs : Nat
  frees : Nat
  oob : Bool
  ovf : Bool
  deriving DecidableEq

/-- Start state: both statics are zero-initialised, nothing allocated yet. -/
def initState (user_mem : List Nat) : State :=
  { output_buffer := none, output_len := 0, user_mem := user_mem,
    allocs := 0, frees := 0, oob := false, ovf := false }

/-- Value of a 32-bit two's complement `int` holding `z` modulo `2^32`. -/
def wrapInt32 (z : Int) : Int := (z + 2147483648) % 4294967296 - 2147483648

/-- Conversion of an integer to the 32-bit `size_t` argument of `malloc`. -/
def toSizeT (z : Int) : Nat := (z % 4294967296).toNat

/-- The call `malloc(size)`: NULL on failure, else a fresh block of `size` bytes. -/
def malloc (ok : Bool) (size : Nat) : Option (List Nat) :=
  if ok then some (List.replicate size 0) else none

/-- Overwrite `dst` from index `off` on with `src`, clipped to the block. -/
def writeAt (dst : List Nat) (off : Nat) (src : List Nat) : List Nat :=
  dst.take off ++ src.take (dst.length - off) ++ dst.drop (off + src.length)

/-- The call `memcpy(dst + off, src, src.length)` as seen on the block `dst`:
the bytes that land inside the block replace its contents, the others fall
outside the modelled memory. -/
def memcpy (dst : List Nat) (off : Int) (src : List Nat) : List Nat :=
  writeAt dst off.toNat (src.drop (-off).toNat)

/-- Whether the range `[off, off + n)` lies inside the block `dst`. -/
def inBounds (dst : List Nat) (off : Int) (n : Nat) : Bool :=
  decide (0 ≤ off ∧ off + (n : Int) ≤ (dst.length : Int))

/-- The statement `output_len += evt->data_len`. -/
def addLen (s : State) (n : Nat) : State :=
  { s with
    output_len := wrapInt32 (s.output_len + (n : Int)),
    ovf := s.ovf || decide (2147483647 < s.output_len + (n : Int)) }

/-- The block `if (output_buffer != NULL) { free(output_buffer); output_buffer = NULL; }
output_len = 0;` shared by the ON_FINISH and DISCONNECTED cases. -/
def releaseBuffer (s : State) : State :=
  match s.output_buffer with
  | some _ => { s with output_buffer := none, frees := s.frees + 1, output_len := 0 }
  | none => { s with output_len := 0 }

/-- The callback `_http_event_handler`, lines 86-164.  Logging is omitted; the
TLS error lookup of the DISCONNECTED case only feeds log lines. -/
def _http_event_handler (s : State) (evt : Event) : State × EspErr :=
  match evt.event_id with
  | .HTTP_EVENT_ERROR => (s, .ESP_OK)
  | .HTTP_EVENT_ON_CONNECTED => (s, .ESP_OK)
  | .HTTP_EVENT_HEADER_SENT => (s, .ESP_OK)
  | .HTTP_EVENT_ON_HEADER => (s, .ESP_OK)
  | .HTTP_EVENT_ON_DATA =>
    if !evt.is_chunked then
      if evt.user_data then
        let s1 := { s with
          user_mem := memcpy s.user_mem s.output_len evt.data,
          oob := s.oob || !inBounds s.user_mem s.output_len evt.data.length }
        (addLen s1 evt.data.length, .ESP_OK)
      else
        match s.output_buffer with
        | none =>
          match malloc evt.malloc_ok (toSizeT evt.content_length) with
          | none => ({ s with output_buffer := none, output_len := 0 }, .ESP_FAIL)
          | some b =>
            let s1 := { s with
              output_buffer := some (memcpy b 0 evt.data),
              output_len := 0,
              allocs := s.allocs + 1,
              oob := s.oob || !inBounds b 0 evt.data.length }
            (addLen s1 evt.data.length, .ESP_OK)
        | some b =>
          let s1 := { s with
            output_buffer := some (memcpy b s.output_len evt.data),
            oob := s.oob || !inBounds b s.output_len evt.data.length }
          (addLen s1 evt.data.length, .ESP_OK)
    else (s, .ESP_OK)
  | .HTTP_EVENT_ON_FINISH => (releaseBuffer s, .ESP_OK)
  | .HTTP_EVENT_DISCONNECTED => (releaseBuffer s, .ESP_OK)

/-- State after one call of the handler. -/
def step (s : State) (evt : Event) : State := (_http_event_handler s evt).1

/-- State after the handler processed the events in order. -/
def run (s : State) (evts : List Event) : State := evts.foldl step s

/-- Payload bytes of the non-chunked events, in arrival order. -/
def body (evts : List Event) : List Nat :=
  (evts.filter (fun e => !e.is_chunked)).flatMap (fun e => e.data)

/-- The buffer a non-chunked ON_DATA event appends to: the caller-fixed buffer
when `evt->user_data` is set, else the block behind `output_buffer`. -/
def target (ud : Bool) (s : State) : Option (List Nat) :=
  if ud then some s.user_mem else s.output_buffer

/-- State right after the successful `malloc` of lines 121-122, before the copy. -/
def allocated (s : State) (evt : Event) : State :=
  { s with
    output_buffer := some (List.replicate (toSizeT evt.content_length) 0),
    output_len := 0,
    allocs := s.allocs + 1 }

/-- Balance invariant: releases never exceed allocations and the surplus is
one exactly while the buffer reference is non-NULL. -/
def Balanced (s : State) : Prop :=
  s.frees ≤ s.allocs ∧ s.allocs - s.frees = (if s.output_buffer.isSome then 1 else 0)

/-- Size of the response buffer that `https_with_url` hands to the handler. -/
def MAX_HTTP_OUTPUT_BUFFER : Nat := 2048

/-- The array `local_response_buffer` of `https_with_url`, zero-initialised. -/
def local_response_buffer : List Nat := List.replicate MAX_HTTP_OUTPUT_BUFFER 0

/-- The first non-chunked event of a sequence, if any. -/
def firstData (evts : List Event) : Option Event :=
  (evts.filter (fun e => !e.is_chunked)).head?

/-! ## Calibration (`VAL_TO_PERCENT`, `get_data`) -/

/-- The constant `OFFSET`. -/
def OFFSET : Int := 1000

/-- Floor of the binary logarithm of a positive number, by halving; the fuel
is never exhausted because it starts at the number itself. -/
def log2Fuel : Nat → Nat → Nat
  | 0, _ => 0
  | fuel + 1, n => if n < 2 then 0 else log2Fuel fuel (n / 2) + 1

/-- Floor of the binary logarithm of a positive number. -/
def floorLog2 (n : Nat) : Nat := log2Fuel n n

/-- The exponent `e` of the leading bit of the positive fraction `n / d`, that
is `2^e ≤ n / d < 2^(e+1)`: the difference of the two bit lengths or one less. -/
def ilog2 (n d : Nat) : Int :=
  if d * 2 ^ ((floorLog2 n : Int) - (floorLog2 d : Int)).toNat ≤
      n * 2 ^ ((floorLog2 d : Int) - (floorLog2 n : Int)).toNat
  then (floorLog2 n : Int) - (floorLog2 d : Int)
  else (floorLog2 n : Int) - (floorLog2 d : Int) - 1

/-- The fraction `n / d` rounded to the nearest natural number, ties to even. -/
def roundHalfEven (n d : Nat) : Nat :=
  if 2 * (n % d) < d then n / d
  else if d < 2 * (n % d) then n / d + 1
  else if (n / d) % 2 = 0 then n / d else n / d + 1

/-- Exponent of the unit in the last place of `q` for a significand of `p` bits. -/
def ulpExp (p : Nat) (q : ℚ) : Int := ilog2 q.num.natAbs q.den - ((p : Int) - 1)

/-- Rounding of the real value `q` to the nearest binary floating-point number
with a significand of `p` bits, ties to even (the IEEE 754 default mode).  The
exponent range is not modelled; every value of this program lies far inside
the normal range of both `double` and `float`. -/
def roundBin (p : Nat) (q : ℚ) : ℚ :=
  if q = 0 then 0
  else
    q.num.sign *
      mkRat ((roundHalfEven (q.num.natAbs * 2 ^ (-ulpExp p q).toNat)
        (q.den * 2 ^ (ulpExp p q).toNat) * 2 ^ (ulpExp p q).toNat : Nat) : Int)
        (2 ^ (-ulpExp p q).toNat)

/-- Result of one `double` operation whose exact result is `q` (binary64). -/
def fl64 (q : ℚ) : ℚ := roundBin 53 q

/-- Conversion of the value `q` to `float` (binary32). -/
def fl32 (q : ℚ) : ℚ := roundBin 24 q

/-- The macro `VAL_TO_PERCENT(x)`, `((1 - ((x - OFFSET) / (4096.0 - OFFSET))) * 100)`,
for an `int` argument as in `get_data`: the value of the resulting `double`.
The subtraction `x - OFFSET` is a 32-bit `int` subtraction, converted exactly
to `double`; `4096.0 - OFFSET`, the division, the subtraction from 1 and the
multiplication by 100 are `double` operations, each rounded to nearest. -/
def VAL_TO_PERCENT (x : Int) : ℚ :=
  fl64 (fl64 (1 - fl64 (((wrapInt32 (x - OFFSET) : Int) : ℚ) / fl64 (4096 - (OFFSET : ℚ)))) * 100)

/-- The value that `get_data` stores in the `float moisture_send` for the raw
count `adc_raw` (line 65): the `double` of the macro converted to `float`. -/
def get_data (adc_raw : Int) : ℚ := fl32 (VAL_TO_PERCENT adc_raw)

/-! ## Payload construction (`https_with_url`) -/

/-- The six bytes of `mac_addr` that `https_with_url` prints.  Each field is
read modulo 256, the array elements being `uint8_t`. -/
structure MacAddr where
  b0 : Nat
  b1 : Nat
  b2 : Nat
  b3 : Nat
  b4 : Nat
  b5 : Nat
  deriving DecidableEq

/-- Conversion `%i` of `printf`: signed decimal. -/
def fmt_i (z : Int) : List Char :=
  if z < 0 then '-' :: Nat.toDigits 10 z.natAbs else Nat.toDigits 10 z.natAbs

/-- Conversion `%02x` of `printf`: lowercase hexadecimal, zero-padded to width 2. -/
def fmt_02x (b : Nat) : List Char :=
  List.replicate (2 - (Nat.toDigits 16 b).length) '0' ++ Nat.toDigits 16 b

/-- The value `q` scaled by `10^6` and rounded to the nearest integer, ties to
even, in absolute value. -/
def roundMicro (q : ℚ) : Nat :=
  let a := q.num.natAbs * 1000000
  let n0 := a / q.den
  let r := a % q.den
  if 2 * r < q.den then n0
  else if q.den < 2 * r then n0 + 1
  else if n0 % 2 = 0 then n0 else n0 + 1

/-- Conversion `%f` of `printf` for a finite value: sign, integer part, a point
and six fractional digits, the value being rounded to six decimals. -/
def fmt_f (q : ℚ) : List Char :=
  (if q.num < 0 then ['-'] else []) ++ Nat.toDigits 10 (roundMicro q / 1000000) ++ ['.'] ++
    List.replicate (6 - (Nat.toDigits 10 (roundMicro q % 1000000)).length) '0' ++
    Nat.toDigits 10 (roundMicro q % 1000000)

/-- The text that `snprintf(buf, size, ...)` leaves in `buf` (before the
terminator) when the fully formatted text is `text`: at most `size - 1`
characters.  The return value is ignored by `https_with_url`. -/
def snprintf (size : Nat) (text : List Char) : List Char := text.take (size - 1)

/-- The fully formatted text of the first `snprintf` of `https_with_url`. -/
def profile_text (mac_addr : MacAddr) : List Char :=
  fmt_02x (mac_addr.b0 % 256) ++ ":".toList ++ fmt_02x (mac_addr.b1 % 256) ++ ":".toList ++
  fmt_02x (mac_addr.b2 % 256) ++ ":".toList ++ fmt_02x (mac_addr.b3 % 256) ++ ":".toList ++
  fmt_02x (mac_addr.b4 % 256) ++ ":".toList ++ fmt_02x (mac_addr.b5 % 256)

/-- The buffer `profile_send` (18 bytes) after line 182. -/
def profile_send (mac_addr : MacAddr) : List Char := snprintf 18 (profile_text mac_addr)

/-- The fully formatted text of the second `snprintf` (line 184).  The
`uint32_t time_send` is printed with `%i`, that is as the 32-bit `int` with
the same bits; `moisture_send` is the value of the `float`. -/
def post_text (time_send : Nat) (moisture_send : ℚ) (mac_addr : MacAddr) : List Char :=
  "\x7b\"timestamp\":\"".toList ++ fmt_i (wrapInt32 ((time_send % 4294967296 : Nat) : Int)) ++
  "\",\"moisture\":\"".toList ++ fmt_f moisture_send ++
  "\",\"profile\":\"".toList ++ profile_send mac_addr ++ "\"\x7d".toList

/-- The buffer `post_data` (100 bytes) after line 184. -/
def post_data (time_send : Nat) (moisture_send : ℚ) (mac_addr : MacAddr) : List Char :=
  snprintf 100 (post_text time_send moisture_send mac_addr)

/-- The arguments `post_data, strlen(post_data)` that `https_with_url` passes
to `esp_http_client_set_post_field` (line 189).  Nothing between lines 177 and
189 can fail or return early. -/
def https_with_url (time_send : Nat) (moisture_send : ℚ) (mac_addr : MacAddr) :
    List Char × Nat :=
  (post_data time_send moisture_send mac_addr,
   (post_data time_send moisture_send mac_addr).length)

/-- One octet as two lowercase hexadecimal digits, as the wire format words it. -/
def hexOctet (b : Nat) : List Char :=
  ["0123456789abcdef".toList.getD (b / 16) '?', "0123456789abcdef".toList.getD (b % 16) '?']

/-- The wire format as the specification words it: the JSON object with the
decimal timestamp, the reading with six fractional digits and the identity as
six colon-separated hex octets. -/
def wire_format (timestamp : Nat) (moisture : ℚ) (mac : MacAddr) : List Char :=
  "\x7b\"timestamp\":\"".toList ++ Nat.toDigits 10 timestamp ++
  "\",\"moisture\":\"".toList ++ fmt_f moisture ++
  "\",\"profile\":\"".toList ++
  (hexOctet mac.b0 ++ ":".toList ++ hexOctet mac.b1 ++ ":".toList ++ hexOctet mac.b2 ++
    ":".toList ++ hexOctet mac.b3 ++ ":".toList ++ hexOctet mac.b4 ++ ":".toList ++
    hexOctet mac.b5) ++
  "\"\x7d".toList

/-- The six fields of an identity are bytes. -/
def MacAddr.IsBytes (mac : MacAddr) : Prop :=
  mac.b0 < 256 ∧ mac.b1 < 256 ∧ mac.b2 < 256 ∧ mac.b3 < 256 ∧ mac.b4 < 256 ∧ mac.b5 < 256

instance (mac : MacAddr) : Decidable mac.IsBytes := by
  unfold MacAddr.IsBytes; infer_instance

/-! ## Theorems on the event handler -/

theorem releaseBuffer_buffer (s : State) : (releaseBuffer s).output_buffer = none := by
  unfold releaseBuffer; split <;> simp_all

theorem releaseBuffer_len (s : State) : (releaseBuffer s).output_len = 0 := by
  unfold releaseBuffer; split <;> rfl

theorem run_append (s : State) (xs ys : List Event) :
    run s (xs ++ ys) = run (run s xs) ys := by
  simp [run, List.foldl_append]

/-- C1: whatever state the handler is in and whatever events (in particular
any number of ON_DATA events, chunked or not, with or without a caller-fixed
buffer, allocation succeeding or failing) it then processes, one ON_FINISH or
DISCONNECTED event afterwards leaves the dynamic buffer reference NULL and the
running offset zero. -/
theorem C1_terminal_event_resets (s : State) (evts : List Event) (fin : Event)
    (hfin : fin.event_id = EventId.HTTP_EVENT_ON_FINISH ∨
            fin.event_id = EventId.HTTP_EVENT_DISCONNECTED) :
    (run s (evts ++ [fin])).output_buffer = none ∧
    (run s (evts ++ [fin])).output_len = 0 := by
  rw [run_append]
  generalize run s evts = t
  rcases hfin with h | h <;>
    simp [run, step, _http_event_handler, h, releaseBuffer_buffer, releaseBuffer_len]

/-- Witness of C1: two ON_DATA events that allocate and fill a dynamic buffer,
then DISCONNECTED. -/
theorem C1_terminal_event_resets_witness :
    (run (initState [])
      ([⟨EventId.HTTP_EVENT_ON_DATA, [104, 105], false, false, 4, true⟩,
        ⟨EventId.HTTP_EVENT_ON_DATA, [33, 10], false, false, 4, true⟩] ++
       [⟨EventId.HTTP_EVENT_DISCONNECTED, [], false, false, 4, true⟩])).output_buffer = none ∧
    (run (initState [])
      ([⟨EventId.HTTP_EVENT_ON_DATA, [104, 105], false, false, 4, true⟩,
        ⟨EventId.HTTP_EVENT_ON_DATA, [33, 10], false, false, 4, true⟩] ++
       [⟨EventId.HTTP_EVENT_DISCONNECTED, [], false, false, 4, true⟩])).output_len = 0 :=
  C1_terminal_event_resets _ _ _ (Or.inr rfl)

theorem balanced_step (s : State) (e : Event) (h : Balanced s) : Balanced (step s e) := by
  obtain ⟨id, data, ud, ch, cl, mo⟩ := e
  obtain ⟨h1, h2⟩ := h
  cases id <;> cases ch <;> cases ud <;> cases mo <;> cases hb : s.output_buffer <;>
    simp_all [Balanced, step, _http_event_handler, malloc, addLen, releaseBuffer] <;> omega

theorem balanced_run (s : State) (evts : List Event) (h : Balanced s) :
    Balanced (run s evts) := by
  induction evts generalizing s with
  | nil => simpa [run] using h
  | cons e es ih => exact ih (step s e) (balanced_step s e h)

theorem no_data_run (s : State) (evts : List Event)
    (h : ∀ x ∈ evts, x.event_id ≠ EventId.HTTP_EVENT_ON_DATA)
    (hb : s.output_buffer = none) :
    (run s evts).allocs = s.allocs ∧ (run s evts).frees = s.frees ∧
    (run s evts).output_buffer = none := by
  induction evts generalizing s with
  | nil => simp [run, hb]
  | cons e es ih =>
    have he : e.event_id ≠ EventId.HTTP_EVENT_ON_DATA := h e (by simp)
    have hes : ∀ x ∈ es, x.event_id ≠ EventId.HTTP_EVENT_ON_DATA :=
      fun x hx => h x (by simp [hx])
    obtain ⟨id, data, ud, ch, cl, mo⟩ := e
    have key : (step s ⟨id, data, ud, ch, cl, mo⟩).allocs = s.allocs ∧
        (step s ⟨id, data, ud, ch, cl, mo⟩).frees = s.frees ∧
        (step s ⟨id, data, ud, ch, cl, mo⟩).output_buffer = none := by
      cases id <;> simp_all [step, _http_event_handler, releaseBuffer]
    obtain ⟨k1, k2, k3⟩ := key
    have := ih (step s ⟨id, data, ud, ch, cl, mo⟩) hes k3
    simp only [run, List.foldl_cons] at this ⊢
    rw [this.1, this.2.1, this.2.2, k1, k2]
    exact ⟨rfl, rfl, rfl⟩

/-- C3: along every event sequence from the start state, releases never exceed
allocations, allocations minus releases is 1 exactly when the buffer reference
is non-NULL and 0 otherwise, the next event allocates only if it is ON_DATA,
an ON_FINISH or DISCONNECTED event releases exactly once when the buffer is
active and not at all otherwise, and without any ON_DATA event nothing is ever
allocated or released. -/
theorem C3_alloc_release_balance (user_mem : List Nat) (evts : List Event) (e : Event) :
    (run (initState user_mem) evts).frees ≤ (run (initState user_mem) evts).allocs ∧
    (run (initState user_mem) evts).allocs - (run (initState user_mem) evts).frees =
      (if (run (initState user_mem) evts).output_buffer.isSome then 1 else 0) ∧
    (e.event_id ≠ EventId.HTTP_EVENT_ON_DATA →
      (step (run (initState user_mem) evts) e).allocs =
        (run (initState user_mem) evts).allocs) ∧
    (e.event_id = EventId.HTTP_EVENT_ON_FINISH ∨
      e.event_id = EventId.HTTP_EVENT_DISCONNECTED →
      (step (run (initState user_mem) evts) e).frees =
        (run (initState user_mem) evts).frees +
          (if (run (initState user_mem) evts).output_buffer.isSome then 1 else 0)) ∧
    (e.event_id ≠ EventId.HTTP_EVENT_ON_FINISH →
      e.event_id ≠ EventId.HTTP_EVENT_DISCONNECTED →
      (step (run (initState user_mem) evts) e).frees =
        (run (initState user_mem) evts).frees) ∧
    ((∀ x ∈ evts ++ [e], x.event_id ≠ EventId.HTTP_EVENT_ON_DATA) →
      (run (initState user_mem) (evts ++ [e])).allocs = 0 ∧
      (run (initState user_mem) (evts ++ [e])).frees = 0) := by
  have hb : Balanced (run (initState user_mem) evts) :=
    balanced_run _ _ (by simp [Balanced, initState])
  refine ⟨hb.1, hb.2, ?_, ?_, ?_, ?_⟩
  · generalize run (initState user_mem) evts = t
    obtain ⟨id, data, ud, ch, cl, mo⟩ := e
    intro h
    cases id <;> simp_all [step, _http_event_handler, releaseBuffer] <;>
      (split <;> rfl)
  · generalize run (initState user_mem) evts = t
    obtain ⟨id, data, ud, ch, cl, mo⟩ := e
    intro h
    cases id <;> cases ht : t.output_buffer <;>
      simp_all [step, _http_event_handler, releaseBuffer]
  · generalize run (initState user_mem) evts = t
    obtain ⟨id, data, ud, ch, cl, mo⟩ := e
    intro h1 h2
    cases id <;> cases ch <;> cases ud <;> cases mo <;> cases ht : t.output_buffer <;>
      simp_all [step, _http_event_handler, malloc, addLen]
  · intro h
    have := no_data_run (initState user_mem) (evts ++ [e]) h rfl
    exact ⟨this.1, this.2.1⟩

/-- C4: the handler returns ESP_FAIL exactly for a non-chunked ON_DATA event
without caller-fixed buffer, with the dynamic buffer NULL, whose malloc fails;
in that case nothing is copied, the buffer reference stays NULL, the offset is
zero (not advanced), and the counters are untouched; every other call returns
ESP_OK. -/
theorem C4_alloc_failure_reported (s : State) (evt : Event) :
    ((_http_event_handler s evt).2 = EspErr.ESP_FAIL ↔
      (evt.event_id = EventId.HTTP_EVENT_ON_DATA ∧ evt.is_chunked = false ∧
        evt.user_data = false ∧ s.output_buffer = none ∧ evt.malloc_ok = false)) ∧
    ((_http_event_handler s evt).2 = EspErr.ESP_FAIL →
      (_http_event_handler s evt).1.output_buffer = none ∧
      (_http_event_handler s evt).1.output_len = 0 ∧
      (_http_event_handler s evt).1.user_mem = s.user_mem ∧
      (_http_event_handler s evt).1.allocs = s.allocs ∧
      (_http_event_handler s evt).1.frees = s.frees ∧
      (_http_event_handler s evt).1.oob = s.oob ∧
      (_http_event_handler s evt).1.ovf = s.ovf) ∧
    ((_http_event_handler s evt).2 ≠ EspErr.ESP_FAIL →
      (_http_event_handler s evt).2 = EspErr.ESP_OK) := by
  obtain ⟨id, data, ud, ch, cl, mo⟩ := evt
  cases id <;> cases ch <;> cases ud <;> cases mo <;> cases hb : s.output_buffer <;>
    simp [_http_event_handler, malloc, hb]

/-! ### Accumulation -/

theorem wrapInt32_id (z : Int) (h0 : 0 ≤ z) (h1 : z ≤ 2147483647) : wrapInt32 z = z := by
  unfold wrapInt32; omega

theorem memcpy_length (dst : List Nat) (off : Int) (src : List Nat) :
    (memcpy dst off src).length = dst.length := by
  simp only [memcpy, writeAt, List.length_append, List.length_take, List.length_drop]
  omega

theorem memcpy_inside (dst : List Nat) (k : Nat) (src : List Nat)
    (h : k + src.length ≤ dst.length) :
    memcpy dst (k : Int) src = dst.take k ++ src ++ dst.drop (k + src.length) := by
  have h1 : (-(k : Int)).toNat = 0 := by omega
  have h2 : src.length ≤ dst.length - k := by omega
  simp [memcpy, writeAt, h1, List.take_of_length_le h2]

theorem memcpy_take (dst : List Nat) (k : Nat) (src : List Nat)
    (h : k + src.length ≤ dst.length) :
    (memcpy dst (k : Int) src).take (k + src.length) = dst.take k ++ src := by
  rw [memcpy_inside dst k src h]
  have hk : (dst.take k ++ src).length = k + src.length := by
    simp [List.length_take]; omega
  rw [← hk]
  exact List.take_left _ _

theorem body_snoc (evts : List Event) (e : Event) :
    body (evts ++ [e]) = body evts ++ (if e.is_chunked then [] else e.data) := by
  cases h : e.is_chunked <;> simp [body, List.filter_append, List.flatMap_append, h]

theorem run_snoc (s : State) (evts : List Event) (e : Event) :
    run s (evts ++ [e]) = step (run s evts) e := by
  simp [run, List.foldl_append]

theorem step_chunked (s : State) (e : Event)
    (hid : e.event_id = EventId.HTTP_EVENT_ON_DATA) (hch : e.is_chunked = true) :
    _http_event_handler s e = (s, EspErr.ESP_OK) := by
  simp [_http_event_handler, hid, hch]

theorem step_data (s : State) (e : Event) (m : List Nat)
    (hid : e.event_id = EventId.HTTP_EVENT_ON_DATA) (hch : e.is_chunked = false)
    (ht : target e.user_data s = some m) :
    target e.user_data (step s e) = some (memcpy m s.output_len e.data) ∧
    (step s e).output_len = wrapInt32 (s.output_len + (e.data.length : Int)) ∧
    (step s e).oob = (s.oob || !inBounds m s.output_len e.data.length) ∧
    (step s e).ovf = (s.ovf || decide (2147483647 < s.output_len + (e.data.length : Int))) := by
  obtain ⟨id, data, ud, ch, cl, mo⟩ := e
  simp only at hid hch ht
  subst hid hch
  cases ud
  · simp only [target, Bool.false_eq_true, if_false] at ht
    simp [step, _http_event_handler, ht, target, addLen]
  · simp only [target, if_true, Option.some.injEq] at ht
    subst ht
    simp [step, _http_event_handler, target, addLen]

theorem step_alloc (s : State) (e : Event)
    (hid : e.event_id = EventId.HTTP_EVENT_ON_DATA) (hch : e.is_chunked = false)
    (hud : e.user_data = false) (hm : e.malloc_ok = true) (hb : s.output_buffer = none) :
    step s e = step (allocated s e) e := by
  obtain ⟨id, data, ud, ch, cl, mo⟩ := e
  simp only at hid hch hud hm
  subst hid hch hud hm
  simp [step, _http_event_handler, hb, malloc, allocated, addLen]

/-- Accumulation over a run of ON_DATA events that all append to the same,
already existing target buffer, starting at offset zero. -/
theorem run_data (ud : Bool) (t : State) (m0 : List Nat) (evts : List Event)
    (ht : target ud t = some m0) (hlen : t.output_len = 0)
    (hovf : t.ovf = false) (hoob : t.oob = false)
    (hev : ∀ e ∈ evts, e.event_id = EventId.HTTP_EVENT_ON_DATA ∧ e.user_data = ud) :
    ∃ m, target ud (run t evts) = some m ∧ m.length = m0.length ∧
      ((run t evts).ovf = false ↔ (body evts).length ≤ 2147483647) ∧
      ((run t evts).ovf = false →
        (run t evts).output_len = ((body evts).length : Int) ∧
        ((run t evts).oob = false ↔ (body evts).length ≤ m0.length) ∧
        ((run t evts).oob = false → m.take (body evts).length = body evts)) := by
  induction evts using List.reverseRecOn with
  | nil =>
    refine ⟨m0, by simpa [run] using ht, rfl, ?_⟩
    simp [run, body, hovf, hoob, hlen]
  | append_singleton xs e ih =>
    have hxs : ∀ x ∈ xs, x.event_id = EventId.HTTP_EVENT_ON_DATA ∧ x.user_data = ud :=
      fun x hx => hev x (by simp [hx])
    obtain ⟨hid, hud⟩ := hev e (by simp)
    obtain ⟨m, hm, hml, hov, hrest⟩ := ih hxs
    rw [run_snoc, body_snoc]
    cases hch : e.is_chunked
    · -- non-chunked: one more append
      subst hud
      obtain ⟨s1, s2, s3, s4⟩ := step_data (run t xs) e m hid hch hm
      refine ⟨_, s1, by rw [memcpy_length, hml], ?_, ?_⟩
      · simp only [Bool.false_eq_true, if_false, List.length_append]
        rw [s4]
        constructor
        · intro h
          simp only [Bool.or_eq_false_iff, decide_eq_false_iff_not, not_lt] at h
          have := (hrest h.1).1
          omega
        · intro h
          have hp : (run t xs).ovf = false := hov.2 (by omega)
          have := (hrest hp).1
          simp only [Bool.or_eq_false_iff, decide_eq_false_iff_not, not_lt]
          exact ⟨hp, by omega⟩
      · simp only [Bool.false_eq_true, if_false, List.length_append]
        rw [s4, s3, s2]
        intro h
        simp only [Bool.or_eq_false_iff, decide_eq_false_iff_not, not_lt] at h
        obtain ⟨hp, hle⟩ := h
        obtain ⟨r1, r2, r3⟩ := hrest hp
        rw [r1] at hle ⊢
        refine ⟨?_, ?_, ?_⟩
        · rw [wrapInt32_id _ (by omega) hle]; push_cast; rfl
        · simp only [Bool.or_eq_false_iff, Bool.not_eq_false_eq_eq_true, inBounds,
            decide_eq_true_eq, r2, hml]
          constructor
          · intro h; omega
          · intro h; exact ⟨by omega, by omega⟩
        · intro h
          simp only [Bool.or_eq_false_iff, Bool.not_eq_false_eq_eq_true, inBounds,
            decide_eq_true_eq] at h
          obtain ⟨hq, -, hin⟩ := h
          have hin2 : (body xs).length + e.data.length ≤ m.length := by omega
          rw [memcpy_take m _ _ hin2, r3 hq]
    · -- chunked: nothing changes
      have : step (run t xs) e = run t xs := by
        simp [step, step_chunked _ _ hid hch]
      rw [this]
      refine ⟨m, hm, hml, ?_, ?_⟩
      · simpa using hov
      · simpa using hrest

theorem run_cons (s : State) (e : Event) (evts : List Event) :
    run s (e :: evts) = run (step s e) evts := by
  simp [run]

theorem run_chunked_only (s : State) (evts : List Event)
    (hev : ∀ e ∈ evts, e.event_id = EventId.HTTP_EVENT_ON_DATA)
    (hno : firstData evts = none) : run s evts = s ∧ body evts = [] := by
  induction evts with
  | nil => simp [run, body]
  | cons e es ih =>
    have hid := hev e (by simp)
    have hes : ∀ x ∈ es, x.event_id = EventId.HTTP_EVENT_ON_DATA :=
      fun x hx => hev x (by simp [hx])
    cases hch : e.is_chunked
    · simp [firstData, List.filter_cons, hch] at hno
    · have hno2 : firstData es = none := by
        simpa [firstData, List.filter_cons, hch] using hno
      obtain ⟨i1, i2⟩ := ih hes hno2
      have hs : step s e = s := by simp [step, step_chunked _ _ hid hch]
      refine ⟨by rw [run_cons, hs, i1], ?_⟩
      have hb : body (e :: es) = body es := by
        simp [body, List.filter_cons, hch]
      rw [hb, i2]

theorem run_alloc (s : State) (evts : List Event) (e1 : Event)
    (hb : s.output_buffer = none)
    (hev : ∀ e ∈ evts, e.event_id = EventId.HTTP_EVENT_ON_DATA ∧ e.user_data = false ∧
      e.malloc_ok = true)
    (h1 : firstData evts = some e1) :
    run s evts = run (allocated s e1) evts := by
  induction evts with
  | nil => simp [firstData] at h1
  | cons e es ih =>
    obtain ⟨hid, hud, hm⟩ := hev e (by simp)
    have hes : ∀ x ∈ es, x.event_id = EventId.HTTP_EVENT_ON_DATA ∧ x.user_data = false ∧
        x.malloc_ok = true := fun x hx => hev x (by simp [hx])
    cases hch : e.is_chunked
    · have he : e = e1 := by
        simpa [firstData, List.filter_cons, hch] using h1
      subst he
      rw [run_cons, run_cons, step_alloc s e hid hch hud hm hb]
    · have h2 : firstData es = some e1 := by
        simpa [firstData, List.filter_cons, hch] using h1
      have hs : ∀ t : State, step t e = t := fun t => by
        simp [step, step_chunked _ _ hid hch]
      rw [run_cons, run_cons, hs, hs]
      exact ih hes h2

/-- C2: a chunked ON_DATA event changes nothing; a non-chunked one whose
target buffer exists writes its bytes at the current offset and advances the
offset by its length; on a NULL dynamic buffer with a succeeding malloc it
first allocates a block of the declared content length and restarts at offset
zero.  Hence for a request starting at offset zero whose writes all fit (no
write outside the buffer, no overflow of the counter), the final offset is the
total length of the non-chunked events and the first offset bytes of the target
buffer are their data in arrival order; the dynamic buffer has the size of the
content length declared at the first non-chunked event. -/
theorem C2_on_data_accumulation (s0 : State) (ud : Bool) (evts : List Event)
    (hbuf : s0.output_buffer = none) (hlen : s0.output_len = 0)
    (hoob : s0.oob = false) (hovf : s0.ovf = false)
    (hev : ∀ e ∈ evts, e.event_id = EventId.HTTP_EVENT_ON_DATA ∧ e.user_data = ud ∧
      e.malloc_ok = true)
    (hfit : (run s0 evts).oob = false ∧ (run s0 evts).ovf = false) :
    (∀ (s : State) (e : Event), e.event_id = EventId.HTTP_EVENT_ON_DATA →
      e.is_chunked = true → _http_event_handler s e = (s, EspErr.ESP_OK)) ∧
    (∀ (s : State) (e : Event) (m : List Nat) (k : Nat),
      e.event_id = EventId.HTTP_EVENT_ON_DATA → e.is_chunked = false →
      target e.user_data s = some m → s.output_len = (k : Int) →
      k + e.data.length ≤ m.length → k + e.data.length ≤ 2147483647 →
      (_http_event_handler s e).2 = EspErr.ESP_OK ∧
      target e.user_data (step s e) =
        some (m.take k ++ e.data ++ m.drop (k + e.data.length)) ∧
      (step s e).output_len = ((k + e.data.length : Nat) : Int)) ∧
    (∀ (s : State) (e : Event), e.event_id = EventId.HTTP_EVENT_ON_DATA →
      e.is_chunked = false → e.user_data = false → e.malloc_ok = true →
      s.output_buffer = none →
      _http_event_handler s e = _http_event_handler (allocated s e) e) ∧
    (run s0 evts).output_len = ((body evts).length : Int) ∧
    (ud = true → (run s0 evts).output_buffer = none ∧
      (run s0 evts).user_mem.length = s0.user_mem.length ∧
      (run s0 evts).user_mem.take (body evts).length = body evts) ∧
    (ud = false → ∀ e1, firstData evts = some e1 →
      ∃ b, (run s0 evts).output_buffer = some b ∧
        b.length = toSizeT e1.content_length ∧
        b.take (body evts).length = body evts ∧
        (run s0 evts).user_mem = s0.user_mem) := by
  refine ⟨fun s e hid hch => step_chunked s e hid hch, ?_, ?_, ?_, ?_, ?_⟩
  · intro s e m k hid hch ht hk hin hint
    obtain ⟨s1, s2, -, -⟩ := step_data s e m hid hch ht
    refine ⟨?_, ?_, ?_⟩
    · obtain ⟨id, data, ud2, ch, cl, mo⟩ := e
      simp only at hid hch ht
      subst hid hch
      cases ud2 <;> cases hb : s.output_buffer <;>
        simp_all [_http_event_handler, target]
    · rw [s1, hk, memcpy_inside m k e.data hin]
    · rw [s2, hk, wrapInt32_id _ (by omega) (by omega)]; push_cast; rfl
  · intro s e hid hch hud hm hb
    obtain ⟨id, data, ud2, ch, cl, mo⟩ := e
    simp only at hid hch hud hm
    subst hid hch hud hm
    simp [_http_event_handler, hb, malloc, allocated, addLen]
  · cases ud
    · cases h1 : firstData evts with
      | none =>
        obtain ⟨r1, r2⟩ := run_chunked_only s0 evts (fun e he => (hev e he).1) h1
        rw [r1, r2, hlen]; rfl
      | some e1 =>
        have hr := run_alloc s0 evts e1 hbuf hev h1
        obtain ⟨m, -, -, -, hrest⟩ := run_data false (allocated s0 e1) _ evts rfl rfl
          (by simpa [allocated] using hovf) (by simpa [allocated] using hoob)
          (fun e he => ⟨(hev e he).1, (hev e he).2.1⟩)
        rw [hr] at hfit ⊢
        exact (hrest hfit.2).1
    · obtain ⟨m, -, -, -, hrest⟩ := run_data true s0 _ evts rfl hlen hovf hoob
        (fun e he => ⟨(hev e he).1, (hev e he).2.1⟩)
      exact (hrest hfit.2).1
  · intro hud
    subst hud
    obtain ⟨m, hm, hml, -, hrest⟩ := run_data true s0 _ evts rfl hlen hovf hoob
      (fun e he => ⟨(hev e he).1, (hev e he).2.1⟩)
    have hm2 : (run s0 evts).user_mem = m := by simpa [target] using hm
    have hbn : ∀ (es : List Event) (t : State),
        (∀ e ∈ es, e.event_id = EventId.HTTP_EVENT_ON_DATA ∧ e.user_data = true) →
        (run t es).output_buffer = t.output_buffer := by
      intro es
      induction es with
      | nil => intro t _; rfl
      | cons e es ih =>
        intro t h
        obtain ⟨hid, hu⟩ := h e (by simp)
        rw [run_cons, ih (step t e) (fun x hx => h x (by simp [hx]))]
        obtain ⟨id, data, ud2, ch, cl, mo⟩ := e
        simp only at hid hu
        subst hid hu
        cases ch <;> simp [step, _http_event_handler, addLen]
    refine ⟨?_, ?_, ?_⟩
    · rw [hbn evts s0 (fun e he => ⟨(hev e he).1, (hev e he).2.1⟩), hbuf]
    · rw [hm2, hml]
    · rw [hm2]; exact (hrest hfit.2).2.2 hfit.1
  · intro hud e1 h1
    subst hud
    have hr := run_alloc s0 evts e1 hbuf hev h1
    obtain ⟨m, hm, hml, -, hrest⟩ := run_data false (allocated s0 e1) _ evts rfl rfl
      (by simpa [allocated] using hovf) (by simpa [allocated] using hoob)
      (fun e he => ⟨(hev e he).1, (hev e he).2.1⟩)
    have hum : ∀ (es : List Event) (t : State),
        (∀ e ∈ es, e.event_id = EventId.HTTP_EVENT_ON_DATA ∧ e.user_data = false) →
        (run t es).user_mem = t.user_mem := by
      intro es
      induction es with
      | nil => intro t _; rfl
      | cons e es ih =>
        intro t h
        obtain ⟨hid, hu⟩ := h e (by simp)
        rw [run_cons, ih (step t e) (fun x hx => h x (by simp [hx]))]
        obtain ⟨id, data, ud2, ch, cl, mo⟩ := e
        simp only at hid hu
        subst hid hu
        cases ch <;> cases mo <;> cases hb : t.output_buffer <;>
          simp [step, _http_event_handler, addLen, malloc, hb]
    rw [hr] at hfit
    refine ⟨m, ?_, ?_, ?_, ?_⟩
    · rw [hr]; simpa [target] using hm
    · rw [hml]; simp
    · exact (hrest hfit.2).2.2 hfit.1
    · exact hum evts s0 (fun e he => ⟨(hev e he).1, (hev e he).2.1⟩)

/-- Witness of C2: a request without caller-fixed buffer whose server declares
four bytes and delivers them in two events, a chunked event in between. -/
theorem C2_on_data_accumulation_witness :
    ((run (initState [])
        [⟨EventId.HTTP_EVENT_ON_DATA, [104, 105], false, false, 4, true⟩,
         ⟨EventId.HTTP_EVENT_ON_DATA, [1, 2, 3], false, true, 4, true⟩,
         ⟨EventId.HTTP_EVENT_ON_DATA, [33, 10], false, false, 4, true⟩]).oob = false ∧
     (run (initState [])
        [⟨EventId.HTTP_EVENT_ON_DATA, [104, 105], false, false, 4, true⟩,
         ⟨EventId.HTTP_EVENT_ON_DATA, [1, 2, 3], false, true, 4, true⟩,
         ⟨EventId.HTTP_EVENT_ON_DATA, [33, 10], false, false, 4, true⟩]).ovf = false) ∧
    (run (initState [])
        [⟨EventId.HTTP_EVENT_ON_DATA, [104, 105], false, false, 4, true⟩,
         ⟨EventId.HTTP_EVENT_ON_DATA, [1, 2, 3], false, true, 4, true⟩,
         ⟨EventId.HTTP_EVENT_ON_DATA, [33, 10], false, false, 4, true⟩]).output_len =
      ((body
        [⟨EventId.HTTP_EVENT_ON_DATA, [104, 105], false, false, 4, true⟩,
         ⟨EventId.HTTP_EVENT_ON_DATA, [1, 2, 3], false, true, 4, true⟩,
         ⟨EventId.HTTP_EVENT_ON_DATA, [33, 10], false, false, 4, true⟩]).length : Int) :=
  ⟨by decide,
   (C2_on_data_accumulation (initState []) false
      [⟨EventId.HTTP_EVENT_ON_DATA, [104, 105], false, false, 4, true⟩,
       ⟨EventId.HTTP_EVENT_ON_DATA, [1, 2, 3], false, true, 4, true⟩,
       ⟨EventId.HTTP_EVENT_ON_DATA, [33, 10], false, false, 4, true⟩]
      rfl rfl rfl rfl (by decide) (by decide)).2.2.2.1⟩

/-! ### Bounds of the appends -/

theorem local_response_buffer_length : local_response_buffer.length = 2048 := by
  unfold local_response_buffer MAX_HTTP_OUTPUT_BUFFER
  exact List.length_replicate _ _

theorem body_replicate_length (n : Nat) (e : Event) (h : e.is_chunked = false) :
    (body (List.replicate n e)).length = n * e.data.length := by
  induction n with
  | zero => simp [body]
  | succ k ih =>
    have hb : body (List.replicate (k + 1) e) = e.data ++ body (List.replicate k e) := by
      simp only [body, List.replicate_succ, List.filter_cons, h, Bool.not_false, if_true,
        List.flatMap_cons]
    rw [hb, List.length_append, ih]
    ring

/-- C9 refuted: with the 2048-byte buffer of `https_with_url` as caller-fixed
buffer, four non-chunked ON_DATA events of 512 bytes fill it exactly (offset
2048); a fifth one has offset + len = 2560 > 2048 and its `memcpy` writes
outside the buffer. -/
theorem C9_counterexample :
    (run (initState local_response_buffer)
      (List.replicate 4
        ⟨EventId.HTTP_EVENT_ON_DATA, List.replicate 512 65, true, false, 2560, true⟩)).output_len
      = 2048 ∧
    (run (initState local_response_buffer)
      (List.replicate 4
        ⟨EventId.HTTP_EVENT_ON_DATA, List.replicate 512 65, true, false, 2560, true⟩)).user_mem.length
      = 2048 ∧
    ¬ ((2048 : Int) + ((List.replicate 512 65).length : Int) ≤ (MAX_HTTP_OUTPUT_BUFFER : Int)) ∧
    (run (initState local_response_buffer)
      (List.replicate 5
        ⟨EventId.HTTP_EVENT_ON_DATA, List.replicate 512 65, true, false, 2560, true⟩)).oob
      = true := by
  have h4 := run_data true (initState local_response_buffer) local_response_buffer
    (List.replicate 4
      ⟨EventId.HTTP_EVENT_ON_DATA, List.replicate 512 65, true, false, 2560, true⟩)
    rfl rfl rfl rfl (by intro e he; rw [List.eq_of_mem_replicate he]; exact ⟨rfl, rfl⟩)
  have h5 := run_data true (initState local_response_buffer) local_response_buffer
    (List.replicate 5
      ⟨EventId.HTTP_EVENT_ON_DATA, List.replicate 512 65, true, false, 2560, true⟩)
    rfl rfl rfl rfl (by intro e he; rw [List.eq_of_mem_replicate he]; exact ⟨rfl, rfl⟩)
  obtain ⟨m4, a1, a2, a3, a4⟩ := h4
  obtain ⟨m5, b1, b2, b3, b4⟩ := h5
  have l4 : (body (List.replicate 4
      (⟨EventId.HTTP_EVENT_ON_DATA, List.replicate 512 65, true, false, 2560, true⟩ : Event))).length
      = 2048 := by
    rw [body_replicate_length _ _ rfl]
    simp only [List.length_replicate]
  have l5 : (body (List.replicate 5
      (⟨EventId.HTTP_EVENT_ON_DATA, List.replicate 512 65, true, false, 2560, true⟩ : Event))).length
      = 2560 := by
    rw [body_replicate_length _ _ rfl]
    simp only [List.length_replicate]
  have lb := local_response_buffer_length
  rw [l4] at a3 a4
  rw [l5] at b3 b4
  have o4 := a3.2 (by norm_num)
  have o5 := b3.2 (by norm_num)
  refine ⟨(a4 o4).1, ?_, ?_, ?_⟩
  · have : (run (initState local_response_buffer)
        (List.replicate 4
          ⟨EventId.HTTP_EVENT_ON_DATA, List.replicate 512 65, true, false, 2560, true⟩)).user_mem
        = m4 := by
      simp only [target, if_true, Option.some.injEq] at a1
      exact a1
    rw [this, a2, lb]
  · rw [List.length_replicate]
    unfold MAX_HTTP_OUTPUT_BUFFER
    norm_num
  · have hiff := (b4 o5).2.1
    rw [lb] at hiff
    cases hx : (run (initState local_response_buffer)
        (List.replicate 5
          ⟨EventId.HTTP_EVENT_ON_DATA, List.replicate 512 65, true, false, 2560, true⟩)).oob
    · exact absurd (hiff.1 hx) (by norm_num)
    · rfl

/-- C9 amended: the handler checks no bound.  For a request starting at offset
zero whose total number of non-chunked bytes fits an `int`, every append stays
inside its target buffer if and only if that total is at most the capacity of
the buffer: the size of the caller-fixed buffer (2048 for `https_with_url`), or
the content length declared at the first non-chunked event, converted to
`size_t`, for the dynamic buffer. -/
theorem C9_appends_inside_iff (s0 : State) (ud : Bool) (evts : List Event)
    (hbuf : s0.output_buffer = none) (hlen : s0.output_len = 0)
    (hoob : s0.oob = false) (hovf : s0.ovf = false)
    (hev : ∀ e ∈ evts, e.event_id = EventId.HTTP_EVENT_ON_DATA ∧ e.user_data = ud ∧
      e.malloc_ok = true)
    (hint : (body evts).length ≤ 2147483647) :
    (ud = true →
      ((run s0 evts).oob = false ↔ (body evts).length ≤ s0.user_mem.length)) ∧
    (ud = true → s0.user_mem = local_response_buffer →
      ((run s0 evts).oob = false ↔ (body evts).length ≤ 2048)) ∧
    (ud = false → ∀ e1, firstData evts = some e1 →
      ((run s0 evts).oob = false ↔ (body evts).length ≤ toSizeT e1.content_length)) := by
  have hU : ud = true →
      ((run s0 evts).oob = false ↔ (body evts).length ≤ s0.user_mem.length) := by
    intro hud
    subst hud
    obtain ⟨m, -, -, hov, hrest⟩ := run_data true s0 _ evts rfl hlen hovf hoob
      (fun e he => ⟨(hev e he).1, (hev e he).2.1⟩)
    exact (hrest (hov.2 hint)).2.1
  refine ⟨hU, ?_, ?_⟩
  · intro hud hmem
    have := hU hud
    rw [hmem, local_response_buffer_length] at this
    exact this
  · intro hud e1 h1
    subst hud
    have hr := run_alloc s0 evts e1 hbuf hev h1
    obtain ⟨m, -, -, hov, hrest⟩ := run_data false (allocated s0 e1) _ evts rfl rfl
      (by simpa [allocated] using hovf) (by simpa [allocated] using hoob)
      (fun e he => ⟨(hev e he).1, (hev e he).2.1⟩)
    rw [hr]
    simpa using (hrest (hov.2 hint)).2.1

/-- Witness of the amended C9: a server that declares four bytes and sends six. -/
theorem C9_appends_inside_iff_witness :
    (body
      [⟨EventId.HTTP_EVENT_ON_DATA, [104, 105, 33], false, false, 4, true⟩,
       ⟨EventId.HTTP_EVENT_ON_DATA, [1, 2, 3], false, false, 4, true⟩]).length ≤ 2147483647 ∧
    ((run (initState [])
      [⟨EventId.HTTP_EVENT_ON_DATA, [104, 105, 33], false, false, 4, true⟩,
       ⟨EventId.HTTP_EVENT_ON_DATA, [1, 2, 3], false, false, 4, true⟩]).oob = false ↔
     (body
      [⟨EventId.HTTP_EVENT_ON_DATA, [104, 105, 33], false, false, 4, true⟩,
       ⟨EventId.HTTP_EVENT_ON_DATA, [1, 2, 3], false, false, 4, true⟩]).length ≤
      toSizeT (4 : Int)) :=
  ⟨by decide,
   (C9_appends_inside_iff (initState []) false
      [⟨EventId.HTTP_EVENT_ON_DATA, [104, 105, 33], false, false, 4, true⟩,
       ⟨EventId.HTTP_EVENT_ON_DATA, [1, 2, 3], false, false, 4, true⟩]
      rfl rfl rfl rfl (by decide) (by decide)).2.2 rfl _ rfl⟩

/-! ## Theorems on the calibration -/

theorem wrapInt32_of_range (z : Int) (h0 : -2147483648 ≤ z) (h1 : z ≤ 2147483647) :
    wrapInt32 z = z := by
  unfold wrapInt32; omega

theorem log2Fuel_spec (fuel : Nat) : ∀ n : Nat, n ≤ fuel → 0 < n →
    2 ^ log2Fuel fuel n ≤ n ∧ n < 2 ^ (log2Fuel fuel n + 1) := by
  induction fuel with
  | zero => intro n h1 h2; omega
  | succ f ih =>
    intro n h1 h2
    unfold log2Fuel
    split
    · simp; omega
    · have hn : 2 ≤ n := by omega
      obtain ⟨a, b⟩ := ih (n / 2) (by omega) (by omega)
      constructor
      · rw [pow_succ]; omega
      · rw [pow_succ]; omega

theorem floorLog2_spec (n : Nat) (h : 0 < n) :
    2 ^ floorLog2 n ≤ n ∧ n < 2 ^ (floorLog2 n + 1) :=
  log2Fuel_spec n n le_rfl h

theorem ilog2_le (n d c : Nat) (hn : 0 < n) (hd : 0 < d) (hc : (c : Int) ≤ ilog2 n d) :
    d * 2 ^ c ≤ n := by
  obtain ⟨a1, a2⟩ := floorLog2_spec n hn
  obtain ⟨b1, b2⟩ := floorLog2_spec d hd
  unfold ilog2 at hc
  split at hc
  · rename_i hcond
    have hab : floorLog2 d ≤ floorLog2 n := by omega
    have e1 : ((floorLog2 n : Int) - (floorLog2 d : Int)).toNat = floorLog2 n - floorLog2 d := by
      omega
    have e2 : ((floorLog2 d : Int) - (floorLog2 n : Int)).toNat = 0 := by omega
    rw [e1, e2] at hcond
    have hle : c ≤ floorLog2 n - floorLog2 d := by omega
    calc d * 2 ^ c ≤ d * 2 ^ (floorLog2 n - floorLog2 d) :=
          Nat.mul_le_mul_left _ (Nat.pow_le_pow_right (by norm_num) hle)
      _ ≤ n := by simpa using hcond
  · have hle : floorLog2 d + 1 + c ≤ floorLog2 n := by omega
    have h1 : d * 2 ^ c ≤ 2 ^ (floorLog2 d + 1) * 2 ^ c :=
      Nat.mul_le_mul_right _ (le_of_lt b2)
    have h2 : 2 ^ (floorLog2 d + 1) * 2 ^ c = 2 ^ (floorLog2 d + 1 + c) := by
      rw [← pow_add]
    have h3 : 2 ^ (floorLog2 d + 1 + c) ≤ 2 ^ floorLog2 n :=
      Nat.pow_le_pow_right (by norm_num) hle
    omega

theorem roundHalfEven_le (n d : Nat) (hd : 0 < d) (z : Int)
    (h : (n : Int) ≤ z * d) : (roundHalfEven n d : Int) ≤ z := by
  have hdm := Nat.div_add_mod n d
  have hm := Nat.mod_lt n hd
  unfold roundHalfEven
  generalize n / d = m at hdm ⊢
  generalize n % d = r at hdm hm ⊢
  have hn : (n : Int) = d * m + r := by exact_mod_cast hdm.symm
  have hd0 : (0 : Int) < d := by exact_mod_cast hd
  have hr0 : (0 : Int) ≤ r := by positivity
  have hz : (m : Int) ≤ z := by
    by_contra hc
    push_neg at hc
    have h1 : z + 1 ≤ (m : Int) := hc
    nlinarith
  have hz2 : 0 < r → (m : Int) + 1 ≤ z := by
    intro hpos
    have : (0 : Int) < r := by exact_mod_cast hpos
    by_contra hc
    push_neg at hc
    have heq : z = m := by omega
    rw [heq] at h
    nlinarith
  split_ifs
  · exact hz
  · push_cast; exact hz2 (by omega)
  · exact hz
  · push_cast; exact hz2 (by omega)

theorem le_roundHalfEven (n d : Nat) (hd : 0 < d) (z : Int)
    (h : z * d ≤ (n : Int)) : z ≤ (roundHalfEven n d : Int) := by
  have hdm := Nat.div_add_mod n d
  have hm := Nat.mod_lt n hd
  unfold roundHalfEven
  generalize n / d = m at hdm ⊢
  generalize n % d = r at hdm hm ⊢
  have hn : (n : Int) = d * m + r := by exact_mod_cast hdm.symm
  have hd0 : (0 : Int) < d := by exact_mod_cast hd
  have hr : (r : Int) < d := by exact_mod_cast hm
  have hz : z ≤ (m : Int) := by
    by_contra hc
    push_neg at hc
    have h1 : (m : Int) + 1 ≤ z := hc
    nlinarith
  split_ifs
  · exact hz
  · push_cast; omega
  · exact hz
  · push_cast; omega

theorem roundBin_neg (p : Nat) (q : ℚ) : roundBin p (-q) = -roundBin p q := by
  by_cases h : q = 0
  · subst h; simp [roundBin]
  · have h2 : -q ≠ 0 := neg_ne_zero.mpr h
    simp [roundBin, ulpExp, h, h2, Int.sign_neg]

theorem natAbs_num_eq (q : ℚ) : (q.num.natAbs : ℚ) = |q| * q.den := by
  have h2 : (q.num : ℚ) = q * q.den := (Rat.mul_den_eq_num q).symm
  rw [Nat.cast_natAbs, Int.cast_abs, h2, abs_mul, Nat.abs_cast]

theorem ulpExp_le (p j : Nat) (hj : j ≤ p) (q : ℚ) (h0 : q ≠ 0)
    (hq : |q| < 2 ^ (p - j)) : ulpExp p q ≤ -(j : Int) := by
  by_contra hc
  push_neg at hc
  have hn : 0 < q.num.natAbs := Int.natAbs_pos.mpr (Rat.num_ne_zero.mpr h0)
  have hd : 0 < q.den := q.den_pos
  have hle : ((p - j : Nat) : Int) ≤ ilog2 q.num.natAbs q.den := by
    unfold ulpExp at hc
    omega
  have h1 := ilog2_le _ _ _ hn hd hle
  have h2 : ((q.den * 2 ^ (p - j) : Nat) : ℚ) ≤ (q.num.natAbs : ℚ) := by exact_mod_cast h1
  rw [natAbs_num_eq] at h2
  push_cast at h2
  have hd' : (0 : ℚ) < q.den := by exact_mod_cast hd
  nlinarith

theorem roundBin_eq (p j : Nat) (hj : j ≤ p) (q : ℚ) (h0 : q ≠ 0)
    (hq : |q| < 2 ^ (p - j)) :
    ∃ w : Nat, j ≤ w ∧ roundBin p q =
      (q.num.sign : ℚ) * ((roundHalfEven (q.num.natAbs * 2 ^ w) q.den : ℚ) / 2 ^ w) := by
  have hu := ulpExp_le p j hj q h0 hq
  refine ⟨(-ulpExp p q).toNat, by omega, ?_⟩
  have e0 : (ulpExp p q).toNat = 0 := by omega
  simp only [roundBin, h0, if_false, e0, pow_zero, mul_one, Rat.mkRat_eq_div]
  push_cast
  rfl

theorem roundBin_pos_grid (p j : Nat) (hj : j ≤ p) (q : ℚ) (h0 : 0 < q)
    (hq : |q| < 2 ^ (p - j)) (z : Int) :
    (q ≤ z / 2 ^ j → roundBin p q ≤ z / 2 ^ j) ∧
    (z / 2 ^ j ≤ q → (z : ℚ) / 2 ^ j ≤ roundBin p q) := by
  obtain ⟨w, hw, hv⟩ := roundBin_eq p j hj q (ne_of_gt h0) hq
  have hnum : 0 < q.num := Rat.num_pos.mpr h0
  have hsign : q.num.sign = 1 := Int.sign_eq_one_of_pos hnum
  have hd : 0 < q.den := q.den_pos
  have hd' : (0 : ℚ) < q.den := by exact_mod_cast hd
  have hn := natAbs_num_eq q
  rw [abs_of_pos h0] at hn
  have hpw : (0 : ℚ) < 2 ^ w := by positivity
  have hpj : (0 : ℚ) < 2 ^ j := by positivity
  have hsplit : (2 : ℚ) ^ w = 2 ^ j * 2 ^ (w - j) := by
    rw [← pow_add]; congr 1; omega
  have hp : (0 : ℚ) < 2 ^ (w - j) := by positivity
  have hN : ((q.num.natAbs * 2 ^ w : Nat) : ℚ) = q * q.den * 2 ^ w := by
    push_cast; rw [hn]
  obtain ⟨Z, hZ⟩ : ∃ Z : Int, (Z : ℚ) = z * 2 ^ (w - j) := ⟨z * 2 ^ (w - j), by push_cast; rfl⟩
  have hzz : (z : ℚ) / 2 ^ j = (Z : ℚ) / 2 ^ w := by
    rw [hZ, hsplit]
    field_simp
    ring
  rw [hv, hsign, hzz]
  simp only [Int.cast_one, one_mul]
  generalize q.num.natAbs * 2 ^ w = N at hN ⊢
  generalize q.den = d at hN hd hd' ⊢
  constructor
  · intro h
    have hq1 : (N : ℚ) ≤ (Z : ℚ) * (d : ℚ) := by
      rw [hN]
      rw [le_div_iff₀ hpw] at h
      nlinarith [mul_le_mul_of_nonneg_right h hd'.le]
    have h1 : (N : Int) ≤ Z * (d : Int) := by exact_mod_cast hq1
    have h2 := roundHalfEven_le N d hd Z h1
    have h3 : ((roundHalfEven N d : Nat) : ℚ) ≤ (Z : ℚ) := by exact_mod_cast h2
    exact div_le_div_of_nonneg_right h3 hpw.le
  · intro h
    have hq1 : (Z : ℚ) * (d : ℚ) ≤ (N : ℚ) := by
      rw [hN]
      rw [div_le_iff₀ hpw] at h
      nlinarith [mul_le_mul_of_nonneg_right h hd'.le]
    have h1 : Z * (d : Int) ≤ (N : Int) := by exact_mod_cast hq1
    have h2 := le_roundHalfEven N d hd Z h1
    have h3 : (Z : ℚ) ≤ ((roundHalfEven N d : Nat) : ℚ) := by exact_mod_cast h2
    exact div_le_div_of_nonneg_right h3 hpw.le

/-- Rounding never crosses a point of a grid that is fine enough to be representable. -/
theorem roundBin_grid (p j : Nat) (hj : j ≤ p) (q : ℚ) (hq : |q| < 2 ^ (p - j)) (z : Int) :
    (q ≤ z / 2 ^ j → roundBin p q ≤ z / 2 ^ j) ∧
    (z / 2 ^ j ≤ q → (z : ℚ) / 2 ^ j ≤ roundBin p q) := by
  rcases lt_trichotomy q 0 with h | h | h
  · have hq' : |(-q)| < 2 ^ (p - j) := by rwa [abs_neg]
    obtain ⟨a, b⟩ := roundBin_pos_grid p j hj (-q) (neg_pos.mpr h) hq' (-z)
    rw [roundBin_neg] at a b
    push_cast at a b
    constructor
    · intro h1
      have := b (by rw [neg_div]; linarith)
      rw [neg_div] at this
      linarith
    · intro h1
      have := a (by rw [neg_div]; linarith)
      rw [neg_div] at this
      linarith
  · subst h
    simp [roundBin]
  · exact roundBin_pos_grid p j hj q h hq z

theorem roundBin_exact (p j : Nat) (hj : j ≤ p) (q : ℚ) (hq : |q| < 2 ^ (p - j)) (z : Int)
    (h : q = z / 2 ^ j) : roundBin p q = q := by
  obtain ⟨a, b⟩ := roundBin_grid p j hj q hq z
  have h1 := a (le_of_eq h)
  have h2 := b (le_of_eq h.symm)
  rw [h]
  rw [h] at h1 h2
  exact le_antisymm h1 h2

theorem roundBin_error (p j : Nat) (hj : j ≤ p) (q : ℚ) (hq : |q| < 2 ^ (p - j)) :
    |roundBin p q - q| ≤ 1 / 2 ^ j := by
  have hpj : (0 : ℚ) < 2 ^ j := by positivity
  obtain ⟨-, b⟩ := roundBin_grid p j hj q hq ⌊q * 2 ^ j⌋
  obtain ⟨a, -⟩ := roundBin_grid p j hj q hq (⌊q * 2 ^ j⌋ + 1)
  have f1 : (⌊q * 2 ^ j⌋ : ℚ) ≤ q * 2 ^ j := Int.floor_le _
  have f2 : q * 2 ^ j < (⌊q * 2 ^ j⌋ : ℚ) + 1 := Int.lt_floor_add_one _
  have h1 := b (by rw [div_le_iff₀ hpj]; exact f1)
  have h2 := a (by rw [le_div_iff₀ hpj]; push_cast; linarith)
  push_cast at h2
  rw [div_le_iff₀ hpj] at h1
  rw [le_div_iff₀ hpj] at h2
  rw [abs_le]
  constructor
  · rw [le_sub_iff_add_le, ← sub_eq_neg_add, sub_le_iff_le_add]
    have : q * 2 ^ j ≤ (roundBin p q + 1 / 2 ^ j) * 2 ^ j := by
      rw [add_mul, one_div, inv_mul_cancel₀ (ne_of_gt hpj)]; linarith
    exact le_of_mul_le_mul_right this hpj
  · rw [sub_le_iff_le_add]
    have : roundBin p q * 2 ^ j ≤ (1 / 2 ^ j + q) * 2 ^ j := by
      rw [add_mul, one_div, inv_mul_cancel₀ (ne_of_gt hpj)]; linarith
    exact le_of_mul_le_mul_right this hpj

theorem fl64_divisor : fl64 (4096 - (OFFSET : ℚ)) = 3096 := by
  have h : (4096 - (OFFSET : ℚ)) = ((3096 : Int) : ℚ) / 2 ^ 0 := by
    unfold OFFSET; norm_num
  unfold fl64
  rw [roundBin_exact 53 0 (by norm_num) _ (by unfold OFFSET; norm_num [abs_lt]) 3096 h]
  unfold OFFSET; norm_num

theorem VAL_TO_PERCENT_error (r : Int) (hlo : -2147482648 ≤ r) (hhi : r ≤ 2147483647) :
    |VAL_TO_PERCENT r - (1 - ((r : ℚ) - 1000) / (4096 - 1000)) * 100| ≤ 1 / 2 ^ 24 := by
  have hlo' : (-2147482648 : ℚ) ≤ (r : ℚ) := by exact_mod_cast hlo
  have hhi' : (r : ℚ) ≤ 2147483647 := by exact_mod_cast hhi
  unfold VAL_TO_PERCENT
  rw [fl64_divisor, wrapInt32_of_range _ (by unfold OFFSET; omega) (by unfold OFFSET; omega)]
  have hk : ((r - OFFSET : Int) : ℚ) = (r : ℚ) - 1000 := by unfold OFFSET; push_cast; rfl
  rw [hk]
  generalize hq1 : ((r : ℚ) - 1000) / 3096 = q1
  have b1 : |q1| < 693700 := by
    rw [← hq1, abs_lt]
    constructor
    · rw [lt_div_iff₀ (by norm_num)]; linarith
    · rw [div_lt_iff₀ (by norm_num)]; linarith
  have e1 : |fl64 q1 - q1| ≤ 1 / 2 ^ 33 :=
    roundBin_error 53 33 (by norm_num) q1 (by norm_num; linarith)
  generalize fl64 q1 = d1 at e1 ⊢
  rw [abs_le] at e1
  rw [abs_lt] at b1
  have b2 : |1 - d1| < 693702 := by
    rw [abs_lt]; constructor <;> linarith
  have e2 : |fl64 (1 - d1) - (1 - d1)| ≤ 1 / 2 ^ 33 :=
    roundBin_error 53 33 (by norm_num) _ (by norm_num; linarith)
  generalize fl64 (1 - d1) = d2 at e2 ⊢
  rw [abs_le] at e2
  rw [abs_lt] at b2
  have b3 : |d2 * 100| < 69370300 := by
    rw [abs_lt]; constructor <;> linarith
  have e3 : |fl64 (d2 * 100) - d2 * 100| ≤ 1 / 2 ^ 26 :=
    roundBin_error 53 26 (by norm_num) _ (by norm_num; linarith)
  generalize fl64 (d2 * 100) = d3 at e3 ⊢
  rw [abs_le] at e3
  have hx : (1 - ((r : ℚ) - 1000) / (4096 - 1000)) * 100 = (1 - q1) * 100 := by
    rw [← hq1]; norm_num
  rw [hx, abs_le]
  norm_num at e1 e2 e3 ⊢
  constructor <;> linarith

theorem get_data_error (r : Int) (hlo : 0 ≤ r) (hhi : r ≤ 4096) :
    |get_data r - (1 - ((r : ℚ) - 1000) / (4096 - 1000)) * 100| ≤ 1 / 2 ^ 15 := by
  have hlo' : (0 : ℚ) ≤ (r : ℚ) := by exact_mod_cast hlo
  have hhi' : (r : ℚ) ≤ 4096 := by exact_mod_cast hhi
  have e := VAL_TO_PERCENT_error r (by omega) (by omega)
  unfold get_data
  generalize VAL_TO_PERCENT r = v at e ⊢
  rw [abs_le] at e
  norm_num at e
  have hb : |v| < 133 := by
    rw [abs_lt]; constructor <;> linarith
  have e4 : |fl32 v - v| ≤ 1 / 2 ^ 16 :=
    roundBin_error 24 16 (by norm_num) v (by norm_num; linarith)
  rw [abs_le] at e4 ⊢
  norm_num at e4 ⊢
  constructor <;> linarith

theorem VAL_TO_PERCENT_at_offset : VAL_TO_PERCENT 1000 = 100 := by decide!

theorem VAL_TO_PERCENT_at_full_scale : VAL_TO_PERCENT 4096 = 0 := by decide!

theorem get_data_at_offset : get_data 1000 = 100 := by decide!

theorem get_data_at_full_scale : get_data 4096 = 0 := by decide!

/-- Sample roundings: one tenth as a `double`, one third as a `float`, two
ties just above `2^24` (resolved to the even significand), and a negative value. -/
theorem roundBin_examples :
    fl64 (1 / 10) = 3602879701896397 / 36028797018963968 ∧
    fl32 (1 / 3) = 11184811 / 33554432 ∧
    fl32 16777217 = 16777216 ∧
    fl32 16777219 = 16777220 ∧
    fl32 (-(1 / 3)) = -(11184811 / 33554432) ∧
    get_data 0 = 2167599 / 16384 ∧
    get_data (-1) = 8672513 / 65536 ∧
    get_data 4095 = 2167599 / 67108864 := by
  decide!

/-- C8 refuted as stated: at the raw count 1500 the macro yields the `double`
`5900428290866141 / 2^46` and `get_data` stores the `float` `2747601 / 2^15`;
neither is the exact rational value `32450 / 387` of the formula. -/
theorem C8_counterexample :
    VAL_TO_PERCENT 1500 = 5900428290866141 / 70368744177664 ∧
    get_data 1500 = 2747601 / 32768 ∧
    (1 - (((1500 : Int) : ℚ) - 1000) / (4096 - 1000)) * 100 = 32450 / 387 ∧
    VAL_TO_PERCENT 1500 ≠ (1 - (((1500 : Int) : ℚ) - 1000) / (4096 - 1000)) * 100 ∧
    get_data 1500 ≠ (1 - (((1500 : Int) : ℚ) - 1000) / (4096 - 1000)) * 100 := by
  decide!

/-- C8 amended: for every `int` raw count `r` on which `x - OFFSET` does not
overflow, `VAL_TO_PERCENT(r)` is the formula `(1 - (r - 1000) / (4096 - 1000)) * 100`
evaluated in `double` arithmetic: it lies within `2^-24` of the exact rational
value, unclamped; it is exactly 100 at 1000 and exactly 0 at 4096; it is
strictly decreasing in `r`, above 100 below 1000 and positive on `0..4095`.
The `float` that `get_data` stores is exactly 100 and 0 at these two counts
and, on `0..4096`, lies within `2^-15` of the exact value, is strictly
decreasing, above 100 below 1000 and positive up to 4095. -/
theorem C8_calibration_rounded (r : Int) (hlo : -2147482648 ≤ r) (hhi : r ≤ 2147483647) :
    |VAL_TO_PERCENT r - (1 - ((r : ℚ) - 1000) / (4096 - 1000)) * 100| ≤ 1 / 2 ^ 24 ∧
    VAL_TO_PERCENT 1000 = 100 ∧
    VAL_TO_PERCENT 4096 = 0 ∧
    (∀ r2 : Int, r < r2 → r2 ≤ 2147483647 → VAL_TO_PERCENT r2 < VAL_TO_PERCENT r) ∧
    (r < 1000 → 100 < VAL_TO_PERCENT r) ∧
    (0 ≤ r → r ≤ 4095 → 0 < VAL_TO_PERCENT r) ∧
    get_data 1000 = 100 ∧
    get_data 4096 = 0 ∧
    (0 ≤ r → r ≤ 4096 →
      |get_data r - (1 - ((r : ℚ) - 1000) / (4096 - 1000)) * 100| ≤ 1 / 2 ^ 15 ∧
      (∀ r2 : Int, r < r2 → r2 ≤ 4096 → get_data r2 < get_data r) ∧
      (r < 1000 → 100 < get_data r) ∧
      (r ≤ 4095 → 0 < get_data r)) := by
  have e := VAL_TO_PERCENT_error r hlo hhi
  have e' := e
  rw [abs_le] at e'
  norm_num at e'
  refine ⟨e, VAL_TO_PERCENT_at_offset, VAL_TO_PERCENT_at_full_scale, ?_, ?_, ?_,
    get_data_at_offset, get_data_at_full_scale, ?_⟩
  · intro r2 hlt h2
    have e2 := VAL_TO_PERCENT_error r2 (by omega) h2
    rw [abs_le] at e2
    norm_num at e2
    have : (r : ℚ) + 1 ≤ (r2 : ℚ) := by exact_mod_cast hlt
    linarith
  · intro h
    have : (r : ℚ) + 1 ≤ 1000 := by exact_mod_cast h
    linarith
  · intro h0 h1
    have : (r : ℚ) ≤ 4095 := by exact_mod_cast h1
    linarith
  · intro h0 h1
    have g := get_data_error r h0 h1
    have g' := g
    rw [abs_le] at g'
    norm_num at g'
    refine ⟨g, ?_, ?_, ?_⟩
    · intro r2 hlt h2
      have g2 := get_data_error r2 (by omega) h2
      rw [abs_le] at g2
      norm_num at g2
      have : (r : ℚ) + 1 ≤ (r2 : ℚ) := by exact_mod_cast hlt
      linarith
    · intro h
      have : (r : ℚ) + 1 ≤ 1000 := by exact_mod_cast h
      linarith
    · intro h
      have : (r : ℚ) ≤ 4095 := by exact_mod_cast h
      linarith

/-- Witness of the amended C8 at the raw count 1500. -/
theorem C8_calibration_rounded_witness :
    |VAL_TO_PERCENT 1500 - (1 - (((1500 : Int) : ℚ) - 1000) / (4096 - 1000)) * 100| ≤
      1 / 2 ^ 24 :=
  (C8_calibration_rounded 1500 (by decide) (by decide)).1

/-! ## Theorems on the payload -/

theorem toDigits_length_le (b n e : Nat) (hb : 2 ≤ b) (hn : n < b ^ e) (he : 0 < e) :
    (Nat.toDigits b n).length ≤ e := by
  unfold Nat.toDigits
  exact Nat.toDigitsCore_length b hb (n + 1) n e hn he

theorem fmt_02x_length (b : Nat) (hb : b < 256) : (fmt_02x b).length = 2 := by
  have h := toDigits_length_le 16 b 2 (by norm_num) (by norm_num; exact hb) (by norm_num)
  simp only [fmt_02x, List.length_append, List.length_replicate]
  omega

set_option maxRecDepth 100000 in
theorem fmt_02x_eq_hexOctet : ∀ b < 256, fmt_02x b = hexOctet b := by decide

theorem wrapInt32_range (z : Int) :
    -2147483648 ≤ wrapInt32 z ∧ wrapInt32 z ≤ 2147483647 := by
  unfold wrapInt32; omega

theorem fmt_i_length (z : Int) (h0 : -2147483648 ≤ z) (h1 : z ≤ 2147483647) :
    (fmt_i z).length ≤ 11 := by
  have h := toDigits_length_le 10 z.natAbs 10 (by norm_num) (by norm_num; omega) (by norm_num)
  unfold fmt_i
  split
  · simp only [List.length_cons]; omega
  · omega

theorem fmt_i_of_nat (t : Nat) : fmt_i (t : Int) = Nat.toDigits 10 t := by
  have h : ¬ ((t : Int) < 0) := by omega
  simp [fmt_i, h]

theorem roundMicro_lt (q : ℚ) (h0 : 0 ≤ q) (h1 : q < 999) : roundMicro q < 1000000000 := by
  have hden : 0 < q.den := q.den_pos
  have hnum : 0 ≤ q.num := Rat.num_nonneg.mpr h0
  have hq : (q.num : ℚ) < 999 * (q.den : ℚ) := by
    rw [← Rat.mul_den_eq_num q]
    exact mul_lt_mul_of_pos_right h1 (by exact_mod_cast hden)
  have hz : q.num < 999 * (q.den : Int) := by exact_mod_cast hq
  have hn : q.num.natAbs < 999 * q.den := by omega
  have hdiv : q.num.natAbs * 1000000 / q.den < 999000000 := by
    rw [Nat.div_lt_iff_lt_mul hden]
    nlinarith
  unfold roundMicro
  simp only
  split_ifs <;> omega

theorem fmt_f_length (q : ℚ) (h0 : 0 ≤ q) (h1 : q < 999) : (fmt_f q).length ≤ 10 := by
  have hr := roundMicro_lt q h0 h1
  have hnum : ¬ (q.num < 0) := not_lt.mpr (Rat.num_nonneg.mpr h0)
  have hi := toDigits_length_le 10 (roundMicro q / 1000000) 3 (by norm_num)
    (by norm_num; omega) (by norm_num)
  have hf := toDigits_length_le 10 (roundMicro q % 1000000) 6 (by norm_num)
    (by norm_num; omega) (by norm_num)
  simp only [fmt_f, hnum, if_false, List.length_append, List.length_replicate,
    List.length_cons, List.length_nil]
  omega

theorem profile_text_length (mac : MacAddr) : (profile_text mac).length = 17 := by
  have c : (":".toList).length = 1 := by decide
  simp only [profile_text, List.length_append, c,
    fmt_02x_length _ (Nat.mod_lt _ (by norm_num : 0 < 256))]

theorem profile_send_eq (mac : MacAddr) : profile_send mac = profile_text mac := by
  unfold profile_send snprintf
  exact List.take_of_length_le (by rw [profile_text_length])

theorem post_text_length (t : Nat) (q : ℚ) (mac : MacAddr) :
    (post_text t q mac).length =
      14 + (fmt_i (wrapInt32 ((t % 4294967296 : Nat) : Int))).length + 14 + (fmt_f q).length +
        13 + 17 + 2 := by
  have c1 : ("\x7b\"timestamp\":\"".toList).length = 14 := by decide
  have c2 : ("\",\"moisture\":\"".toList).length = 14 := by decide
  have c3 : ("\",\"profile\":\"".toList).length = 13 := by decide
  have c4 : ("\"\x7d".toList).length = 2 := by decide
  simp only [post_text, List.length_append, c1, c2, c3, c4, profile_send_eq,
    profile_text_length]

theorem VAL_TO_PERCENT_device_range (r : Int) (h0 : 0 ≤ r) (h1 : r ≤ 4095) :
    0 < VAL_TO_PERCENT r ∧ VAL_TO_PERCENT r < 133 := by
  have e := VAL_TO_PERCENT_error r (by omega) (by omega)
  rw [abs_le] at e
  norm_num at e
  have a : (0 : ℚ) ≤ (r : ℚ) := by exact_mod_cast h0
  have b : (r : ℚ) ≤ 4095 := by exact_mod_cast h1
  constructor <;> linarith

theorem get_data_device_range (r : Int) (h0 : 0 ≤ r) (h1 : r ≤ 4095) :
    0 < get_data r ∧ get_data r < 133 := by
  have e := get_data_error r h0 (by omega)
  rw [abs_le] at e
  norm_num at e
  have a : (0 : ℚ) ≤ (r : ℚ) := by exact_mod_cast h0
  have b : (r : ℚ) ≤ 4095 := by exact_mod_cast h1
  constructor <;> linarith

/-- Sample payload readings: what `%f` prints for the `float` that `get_data`
stores at the raw counts 1500, 0 and 4095. -/
theorem fmt_f_examples :
    fmt_f (get_data 1500) = "83.850128".toList ∧
    fmt_f (get_data 0) = "132.299744".toList ∧
    fmt_f (get_data 4095) = "0.032300".toList := by
  decide!

/-- C10: for every raw count in `0..4095`, every timestamp (taken modulo
`2^32` and printed with `%i`) and every identity, the fully formatted payload
has at most 81 characters, so the 100-byte `post_data` holds it untruncated.
This holds for the reading as the `double` of `VAL_TO_PERCENT(r)`, for the
`float` that `get_data` stores in `moisture_send`, and for every reading in
`[0, 999)`. -/
theorem C10_sampler_payload_fits (r : Int) (t : Nat) (mac : MacAddr)
    (h0 : 0 ≤ r) (h1 : r ≤ 4095) :
    (post_text t (VAL_TO_PERCENT r) mac).length ≤ 81 ∧
    (fmt_i (wrapInt32 ((t % 4294967296 : Nat) : Int))).length ≤ 11 ∧
    (fmt_f (VAL_TO_PERCENT r)).length ≤ 10 ∧
    (profile_send mac).length = 17 ∧
    (post_text t (VAL_TO_PERCENT r) mac).length ≤ 99 ∧
    post_data t (VAL_TO_PERCENT r) mac = post_text t (VAL_TO_PERCENT r) mac ∧
    (https_with_url t (VAL_TO_PERCENT r) mac).1 = post_text t (VAL_TO_PERCENT r) mac ∧
    (∀ q : ℚ, 0 ≤ q → q < 999 →
      (post_text t q mac).length ≤ 81 ∧ post_data t q mac = post_text t q mac) ∧
    (0 < get_data r ∧ get_data r < 133) ∧
    (fmt_f (get_data r)).length ≤ 10 ∧
    (post_text t (get_data r) mac).length ≤ 81 ∧
    post_data t (get_data r) mac = post_text t (get_data r) mac ∧
    (https_with_url t (get_data r) mac).1 = post_text t (get_data r) mac := by
  obtain ⟨v0, v1⟩ := VAL_TO_PERCENT_device_range r h0 h1
  obtain ⟨g0, g1⟩ := get_data_device_range r h0 h1
  have hw := wrapInt32_range ((t % 4294967296 : Nat) : Int)
  have hi := fmt_i_length _ hw.1 hw.2
  have gen : ∀ q : ℚ, 0 ≤ q → q < 999 →
      (post_text t q mac).length ≤ 81 ∧ post_data t q mac = post_text t q mac := by
    intro q q0 q1
    have hf := fmt_f_length q q0 q1
    have hl := post_text_length t q mac
    have h81 : (post_text t q mac).length ≤ 81 := by omega
    refine ⟨h81, ?_⟩
    unfold post_data snprintf
    exact List.take_of_length_le (by omega)
  have hv := gen (VAL_TO_PERCENT r) (le_of_lt v0) (by linarith)
  have hg := gen (get_data r) (le_of_lt g0) (by linarith)
  have hf := fmt_f_length (VAL_TO_PERCENT r) (le_of_lt v0) (by linarith)
  have hfg := fmt_f_length (get_data r) (le_of_lt g0) (by linarith)
  refine ⟨hv.1, hi, hf, ?_, by have := hv.1; omega, hv.2, hv.2, gen, ⟨g0, g1⟩, hfg,
    hg.1, hg.2, hg.2⟩
  rw [profile_send_eq, profile_text_length]

/-- Witness of C10 at the raw count 1500 and the largest timestamp. -/
theorem C10_sampler_payload_fits_witness :
    (post_text 4294967295 (VAL_TO_PERCENT 1500) ⟨36, 10, 196, 18, 52, 86⟩).length ≤ 81 :=
  (C10_sampler_payload_fits 1500 4294967295 ⟨36, 10, 196, 18, 52, 86⟩
    (by decide) (by decide)).1

/-- For an identity of six bytes, a timestamp below `2^31` and a reading whose
wire-format text has at most 99 characters, `post_data` is exactly the text of
the wire format, and the identity part has 17 characters. -/
theorem post_data_eq_wire_format (t : Nat) (q : ℚ) (mac : MacAddr)
    (hmac : mac.IsBytes) (ht : t < 2147483648)
    (hfit : (wire_format t q mac).length ≤ 99) :
    post_data t q mac = wire_format t q mac ∧
    (https_with_url t q mac).1 = wire_format t q mac ∧
    (profile_send mac).length = 17 := by
  obtain ⟨m0, m1, m2, m3, m4, m5⟩ := hmac
  have htext : post_text t q mac = wire_format t q mac := by
    have e1 : wrapInt32 ((t % 4294967296 : Nat) : Int) = (t : Int) := by
      unfold wrapInt32; omega
    unfold post_text wire_format
    rw [e1, fmt_i_of_nat, profile_send_eq]
    unfold profile_text
    rw [Nat.mod_eq_of_lt m0, Nat.mod_eq_of_lt m1, Nat.mod_eq_of_lt m2, Nat.mod_eq_of_lt m3,
      Nat.mod_eq_of_lt m4, Nat.mod_eq_of_lt m5,
      fmt_02x_eq_hexOctet _ m0, fmt_02x_eq_hexOctet _ m1, fmt_02x_eq_hexOctet _ m2,
      fmt_02x_eq_hexOctet _ m3, fmt_02x_eq_hexOctet _ m4, fmt_02x_eq_hexOctet _ m5]
  have hd : post_data t q mac = wire_format t q mac := by
    unfold post_data snprintf
    rw [htext]
    exact List.take_of_length_le hfit
  refine ⟨hd, hd, ?_⟩
  rw [profile_send_eq, profile_text_length]

/-- The worked example of the specification: identity `24:0a:c4:12:34:56`,
timestamp 123456 and reading 42.5. -/
theorem post_data_worked_example :
    post_data 123456 (42.5 : ℚ) ⟨0x24, 0x0a, 0xc4, 0x12, 0x34, 0x56⟩ =
      "\x7b\"timestamp\":\"123456\",\"moisture\":\"42.500000\",\"profile\":\"24:0a:c4:12:34:56\"\x7d".toList := by
  have h : (42.5 : ℚ) = mkRat 85 2 := by rw [Rat.mkRat_eq_div]; norm_num
  rw [h]
  decide

/-- C5, the code at the failing input: with `time_send = 2147483648` and the
reading that `get_data` stores for the raw count 1000, the payload has the
timestamp field `-2147483648`; its 80 characters fit the buffer, yet it is not
the text of the wire format, whose timestamp field is `2147483648`. -/
theorem C5_timestamp_field_negative :
    post_data 2147483648 (get_data 1000) ⟨0x24, 0x0a, 0xc4, 0x12, 0x34, 0x56⟩ =
      "\x7b\"timestamp\":\"-2147483648\",\"moisture\":\"100.000000\",\"profile\":\"24:0a:c4:12:34:56\"\x7d".toList ∧
    wire_format 2147483648 (get_data 1000) ⟨0x24, 0x0a, 0xc4, 0x12, 0x34, 0x56⟩ =
      "\x7b\"timestamp\":\"2147483648\",\"moisture\":\"100.000000\",\"profile\":\"24:0a:c4:12:34:56\"\x7d".toList ∧
    post_data 2147483648 (get_data 1000) ⟨0x24, 0x0a, 0xc4, 0x12, 0x34, 0x56⟩ ≠
      wire_format 2147483648 (get_data 1000) ⟨0x24, 0x0a, 0xc4, 0x12, 0x34, 0x56⟩ := by
  rw [get_data_at_offset]
  decide

/-- C6, the code at the failing input: with `time_send = 2147483648` (and with
the largest value `4294967295`) the `%i` conversion prints a negative number, so
the timestamp field of the payload is not the supplied timestamp. -/
theorem C6_timestamp_printed_signed :
    post_data 2147483648 (mkRat 85 2) ⟨0x24, 0x0a, 0xc4, 0x12, 0x34, 0x56⟩ =
      "\x7b\"timestamp\":\"-2147483648\",\"moisture\":\"42.500000\",\"profile\":\"24:0a:c4:12:34:56\"\x7d".toList ∧
    post_data 4294967295 (mkRat 85 2) ⟨0x24, 0x0a, 0xc4, 0x12, 0x34, 0x56⟩ =
      "\x7b\"timestamp\":\"-1\",\"moisture\":\"42.500000\",\"profile\":\"24:0a:c4:12:34:56\"\x7d".toList := by
  decide

/-- C7 refuted: for the reading `-2^127` the formatted text has 115 characters,
more than the 99 that fit; `https_with_url` reports nothing and hands the first
99 characters, an unterminated JSON text, to the HTTP request. -/
theorem C7_counterexample :
    99 < (post_text 86400000 (-170141183460469231731687303715884105728 : ℚ)
      ⟨36, 10, 196, 18, 52, 86⟩).length ∧
    https_with_url 86400000 (-170141183460469231731687303715884105728 : ℚ)
      ⟨36, 10, 196, 18, 52, 86⟩ =
      ("\x7b\"timestamp\":\"86400000\",\"moisture\":\"-170141183460469231731687303715884105728.000000\",\"profile\":\"24:".toList,
       99) := by
  decide

/-- C7 amended: the payload build has no error path; what is handed to the
HTTP request is always the first 99 characters of the fully formatted text (the
whole text when it has at most 99 characters), with its length, which never
exceeds 99; a longer text is therefore sent truncated. -/
theorem C7_payload_truncated_silently (t : Nat) (q : ℚ) (mac : MacAddr) :
    (https_with_url t q mac).1 = (post_text t q mac).take 99 ∧
    (https_with_url t q mac).2 = min 99 (post_text t q mac).length ∧
    (https_with_url t q mac).2 ≤ 99 ∧
    ((post_text t q mac).length ≤ 99 → (https_with_url t q mac).1 = post_text t q mac) ∧
    (99 < (post_text t q mac).length →
      (https_with_url t q mac).2 = 99 ∧ (https_with_url t q mac).1 ≠ post_text t q mac) := by
  have h1 : (https_with_url t q mac).1 = (post_text t q mac).take 99 := rfl
  have h2 : (https_with_url t q mac).2 = min 99 (post_text t q mac).length := by
    simp [https_with_url, post_data, snprintf, List.length_take]
  refine ⟨h1, h2, by omega, ?_, ?_⟩
  · intro h
    rw [h1]
    exact List.take_of_length_le h
  · intro h
    refine ⟨by omega, ?_⟩
    intro hc
    have : ((https_with_url t q mac).1).length = (post_text t q mac).length := by rw [hc]
    rw [h1, List.length_take] at this
    omega

end EspMoistureHttp






